import Mathlib

/-!
# Verification of `neutralocean/traj.py`

Shallow embedding of the neutral-trajectory core: the connection objective
`_func`, the bottle-to-cast connector `_ntp_bottle_to_cast` and its public
wrapper `ntp_bottle_to_cast`, and the sequential driver `neutral_trajectory`.

Numbers are embedded as rationals.  A possibly-NaN float is `Option ℚ`, with
`none` playing the role of NaN (in particular `none > 0` is false, matching
IEEE comparison semantics used by the bracketing search).

The collaborators imported by `traj.py` from sibling modules
(`fzero.guess_to_bounds`, `fzero.brent`, `lib.find_first_nan`, and the linear
dual-variable interpolator built by `interp1d.make_interpolator`) are not part
of the sources under verification; they are modelled from the specification's
contracts and marked as such.  The connector takes the bracketing search and
the root finder as explicit function parameters (they are external
collaborators); `guess_to_bounds` and `brent` below are the spec-modelled
instances plugged in by the public entry points.
-/

/-- A possibly-NaN scalar: `none` is NaN. -/
abbrev R1 : Type := Option ℚ

/-- A triple `(s, t, p)` of possibly-NaN scalars, the connector's result type. -/
abbrev R3 : Type := Option ℚ × Option ℚ × Option ℚ

/-- An equation of state: density-like scalar from salinity, temperature and
pressure.  Pure numeric callable, per the spec's external-interface contract. -/
abbrev EosFn : Type := ℚ → ℚ → ℚ → ℚ

/-- A dual-variable interpolator `f(target, P, S, T) = (s, t)`, returning
missing sentinels outside the coordinate domain. -/
abbrev InterpFn : Type := ℚ → List R1 → List R1 → List R1 → Option ℚ × Option ℚ

/-- A bracketing search: objective, initial guess, domain bounds; `none` is the
non-finite "no sign change" sentinel pair. -/
abbrev GtbFn : Type := (ℚ → Option ℚ) → ℚ → ℚ → ℚ → Option (ℚ × ℚ)

/-- A scalar root finder on a bracket: objective, lower, upper, tolerance. -/
abbrev BrentFn : Type := (ℚ → Option ℚ) → ℚ → ℚ → ℚ → ℚ

/-- Read entry `i` of a float array; out-of-range or NaN entries yield a junk
value (the source's preconditions exclude both at every use). -/
def getQ (L : List R1) (i : ℕ) : ℚ := (L.getD i none).getD 0

/-- `v > 0.0` on a possibly-NaN float: false on NaN, as in Python. -/
def fpos : Option ℚ → Bool
  | none => false
  | some v => decide (0 < v)

/-- `np.sum(np.isfinite(Sc))`: number of non-NaN entries anywhere in the array. -/
def countFinite (L : List R1) : ℕ := L.countP Option.isSome

/-- The all-NaN result triple, the single missing-result signal. -/
def nanTriple : R3 := (none, none, none)

/-- Modelled from the spec: `lib.find_first_nan` is not under the verified
sources; per the data model, the valid prefix length `n_good` is the count of
leading non-missing entries, i.e. the index of the first NaN (array length if
none). -/
def find_first_nan : List R1 → ℕ
  | [] => 0
  | none :: _ => 0
  | some _ :: rest => find_first_nan rest + 1

/-- Linear interpolation of `(x0, y0)`–`(x1, y1)` at `x`. -/
def lerp (x x0 y0 x1 y1 : ℚ) : ℚ := y0 + (x - x0) * (y1 - y0) / (x1 - x0)

/-- Modelled from the spec: the interpolator reads the cast's valid data; the
knots are the leading all-finite `(p, s, t)` triples. -/
def validTriples : List R1 → List R1 → List R1 → List (ℚ × ℚ × ℚ)
  | some p :: Ps, some s :: Ss, some t :: Ts => (p, s, t) :: validTriples Ps Ss Ts
  | _, _, _ => []

/-- Modelled from the spec: piecewise-linear evaluation over the knot list,
returning missing sentinels for a target outside the knots' domain rather than
extrapolating. -/
def interpSeg (x : ℚ) : List (ℚ × ℚ × ℚ) → Option ℚ × Option ℚ
  | [] => (none, none)
  | [(p1, s1, t1)] => if x = p1 then (some s1, some t1) else (none, none)
  | (p1, s1, t1) :: (p2, s2, t2) :: rest =>
      if x < p1 then (none, none)
      else if x ≤ p2 then (some (lerp x p1 s1 p2 s2), some (lerp x p1 t1 p2 t2))
      else interpSeg x ((p2, s2, t2) :: rest)

/-- Modelled from the spec: the linear dual-variable interpolator produced by
`make_interpolator("linear", 0, "1", True)`, which is not under the verified
sources.  Signature `f(target, P, S, T) = (s, t)`; linear interpolation is
exact at a knot, and a target outside the domain yields missing sentinels. -/
def interpTwo : InterpFn := fun x P S T => interpSeg x (validTriples P S T)

/-- Modelled from the spec: one expansion step of the bracketing search.  The
interval around the clamped guess `x` grows geometrically (steps `dm`, `dp`
double each round) and is clamped to `[lo, hi]`; the search stops with a
bracket as soon as the objective's signs at the two ends differ (NaN counts as
not-positive, as in the source's `f(a) > 0.0` tests), and stops with the
missing sentinel once both ends have reached the domain bounds without a sign
change.  The fuel only bounds the geometric expansion and is chosen large
enough that the bounds are always reached first. -/
def gtbAux (f : ℚ → Option ℚ) (lo hi x : ℚ) : ℚ → ℚ → ℕ → Option (ℚ × ℚ)
  | _, _, 0 => none
  | dm, dp, fuel + 1 =>
      let a := max (x - dm) lo
      let b := min (x + dp) hi
      if fpos (f a) ≠ fpos (f b) then some (a, b)
      else if a = lo ∧ b = hi then none
      else gtbAux f lo hi x (2 * dm) (2 * dp) fuel

/-- Modelled from the spec: `fzero.guess_to_bounds` is not under the verified
sources.  Per its contract it clamps the guess to the domain `[lo, hi]`,
expands an interval outward from the guess until the objective has opposite
signs at the two ends or the interval reaches the domain bounds, and returns
the bracket, or a non-finite sentinel (here `none`) when no sign change is
found within the domain.  Initial steps are a fiftieth of the distance to each
bound, doubling each round, so 64 rounds always suffice to reach the bounds. -/
def guess_to_bounds (f : ℚ → Option ℚ) (guess lo hi : ℚ) : Option (ℚ × ℚ) :=
  gtbAux f lo hi (min (max guess lo) hi) ((min (max guess lo) hi - lo) / 50)
    ((hi - min (max guess lo) hi) / 50) 64

/-- Modelled from the spec: one step of the root finder.  The sign-change
bracket is halved, keeping the half across which the sign still changes, until
its width is at most the tolerance; the midpoint of the final bracket is
returned (bisection is one of the methods Brent's algorithm combines, and it
meets the spec's accuracy contract). -/
def brentAux (f : ℚ → Option ℚ) (tol : ℚ) : ℚ → ℚ → ℕ → ℚ
  | a, b, 0 => (a + b) / 2
  | a, b, fuel + 1 =>
      if b - a ≤ tol then (a + b) / 2
      else
        if fpos (f a) ≠ fpos (f ((a + b) / 2)) then brentAux f tol a ((a + b) / 2) fuel
        else brentAux f tol ((a + b) / 2) b fuel

/-- Iterations sufficient for the bracket width `w` to drop below `tol`:
`w / 2 ^ ⌈w / tol⌉ ≤ tol` whenever `0 ≤ w` and `0 < tol`. -/
def brentFuel (w tol : ℚ) : ℕ := (⌈w / tol⌉).toNat

/-- Modelled from the spec: `fzero.brent` is not under the verified sources.
Per its contract, given a bracket with an established sign change it returns a
point within the pressure tolerance of a root, running until the tolerance is
satisfied. -/
def brent : BrentFn := fun f lb ub tol => brentAux f tol lb ub (brentFuel (ub - lb) tol)

/-- `_func` from the source: evaluate the difference between the equation of
state at the bottle and at the cast point interpolated to pressure `p`, both
taken at the average pressure `(pB + p) * 0.5`.  A NaN interpolation result
(out-of-domain target) propagates to a NaN difference. -/
def _func (p sB tB pB : ℚ) (S T P : List R1) (eos : EosFn) (interp_fn : InterpFn) :
    Option ℚ :=
  match interp_fn p P S T with
  | (some s, some t) =>
      some (eos sB tB ((pB + p) * (1 / 2)) - eos s t ((pB + p) * (1 / 2)))
  | _ => none

/-- `_ntp_bottle_to_cast` from the source, with the two imported collaborators
(`guess_to_bounds` and `brent` from `fzero`) taken as explicit function
parameters.  `P[0]` and `P[n_good - 1]` are read through `getQ`. -/
def _ntp_bottle_to_cast (gtb : GtbFn) (brentFn : BrentFn) (sB tB pB : ℚ)
    (S T P : List R1) (n_good : ℕ) (tol_p : ℚ) (eos : EosFn) (interp_fn : InterpFn) :
    R3 :=
  if 1 < n_good then
    match gtb (fun q => _func q sB tB pB S T P eos interp_fn) pB
        (getQ P 0) (getQ P (n_good - 1)) with
    | some lbub =>
        let p := brentFn (fun q => _func q sB tB pB S T P eos interp_fn)
          lbub.1 lbub.2 tol_p
        ((interp_fn p P S T).1, (interp_fn p P S T).2, some p)
    | none => nanTriple
  else nanTriple

/-- `ntp_bottle_to_cast` from the source: the public connector computes
`n_good = find_first_nan(S)` and delegates to `_ntp_bottle_to_cast` (the
string-to-callable dispatch of `make_eos`/`make_interpolator` is outside the
verified sources, so the callables are taken directly). -/
def ntp_bottle_to_cast (sB tB pB : ℚ) (S T P : List R1) (tol_p : ℚ) (eos : EosFn)
    (interp_fn : InterpFn) : R3 :=
  _ntp_bottle_to_cast guess_to_bounds brent sB tB pB S T P (find_first_nan S) tol_p
    eos interp_fn

/-- A Python value, as passed positionally at the call of
`_ntp_bottle_to_cast` inside `neutral_trajectory`. -/
inductive PyVal where
  | fnum : Option ℚ → PyVal
  | arr : List R1 → PyVal
  | int : ℕ → PyVal
  | eosV : EosFn → PyVal
  | interpV : InterpFn → PyVal

/-- Positional application of the 10-parameter `_ntp_bottle_to_cast`
`(sB, tB, pB, S, T, P, n_good, tol_p, eos, interp_fn)` to a Python argument
list.  A list of any other length raises a `TypeError`, as does a list whose
values cannot bind to the parameters.  A NaN bottle or tolerance makes every
objective evaluation NaN, so no sign change is ever found and the result is
the missing triple. -/
def _ntp_call (args : List PyVal) : Except String R3 :=
  match args with
  | [PyVal.fnum sB, PyVal.fnum tB, PyVal.fnum pB, PyVal.arr S, PyVal.arr T,
     PyVal.arr P, PyVal.int n_good, PyVal.fnum tol, PyVal.eosV eos,
     PyVal.interpV interp_fn] =>
      match sB, tB, pB, tol with
      | some sBv, some tBv, some pBv, some tolv =>
          Except.ok (_ntp_bottle_to_cast guess_to_bounds brent sBv tBv pBv S T P
            n_good tolv eos interp_fn)
      | _, _, _, _ => Except.ok nanTriple
  | _ =>
      if args.length ≠ 10 then
        Except.error "TypeError: _ntp_bottle_to_cast takes 10 positional arguments"
      else Except.error "TypeError: argument types do not match"

/-- The cast loop of `neutral_trajectory` (source lines 285-299): for each
remaining cast, compute `K = np.sum(np.isfinite(Sc))` and call
`_ntp_bottle_to_cast` with the twelve positional arguments written in the
source — `(s[c-1], t[c-1], p[c-1], Sc, Tc, Pc, Sc, Tc, K, eos, interp, tol_p)`
— then append the result, breaking out of the loop once `p[c]` is NaN and
leaving every later position NaN. -/
def trajLoop (eos : EosFn) (interp : InterpFn) (tol_p : ℚ) :
    R3 → List (List R1) → List (List R1) → List (List R1) → Except String (List R3)
  | _, [], _, _ => Except.ok []
  | prev, Sc :: Ss, Tc :: Ts, Pc :: Ps =>
      match _ntp_call [PyVal.fnum prev.1, PyVal.fnum prev.2.1, PyVal.fnum prev.2.2,
          PyVal.arr Sc, PyVal.arr Tc, PyVal.arr Pc, PyVal.arr Sc, PyVal.arr Tc,
          PyVal.int (countFinite Sc), PyVal.eosV eos, PyVal.interpV interp,
          PyVal.fnum (some tol_p)] with
      | Except.error e => Except.error e
      | Except.ok r =>
          if r.2.2 = none then Except.ok (r :: Ss.map fun _ => nanTriple)
          else (trajLoop eos interp tol_p r Ss Ts Ps).map (r :: ·)
  | _, _ :: _, _, _ => Except.error "IndexError: cast arrays have mismatched shapes"

/-- `neutral_trajectory` from the source, over casts given as lists of columns.
The body never reads `s0` or `t0`: trajectory point 0 is always obtained by
interpolating the first cast at `p0` (source lines 277-282), after which the
cast loop runs.  With no casts at all, writing `s[0]` raises. -/
def neutral_trajectory (S T P : List (List R1)) (p0 : ℚ) (s0 t0 : Option ℚ)
    (tol_p : ℚ) (eos : EosFn) (interp : InterpFn) : Except String (List R3) :=
  match S, T, P with
  | Sc :: Ss, Tc :: Ts, Pc :: Ps =>
      (trajLoop eos interp tol_p ((interp p0 Pc Sc Tc).1, (interp p0 Pc Sc Tc).2,
          some p0) Ss Ts Ps).map
        (((interp p0 Pc Sc Tc).1, (interp p0 Pc Sc Tc).2, some p0) :: ·)
  | _, _, _ => Except.error "IndexError: index 0 is out of bounds"

/-- The valid prefix of `P` (its first `n` entries) is strictly increasing. -/
def strictIncOn (P : List R1) (n : ℕ) : Prop :=
  ∀ j, j < n → ∀ i, i < j → getQ P i < getQ P j

/-! ## Unfolding lemmas for the fuel recursions -/

theorem gtbAux_succ (f : ℚ → Option ℚ) (lo hi x dm dp : ℚ) (fuel : ℕ) :
    gtbAux f lo hi x dm dp (fuel + 1) =
      if fpos (f (max (x - dm) lo)) ≠ fpos (f (min (x + dp) hi)) then
        some (max (x - dm) lo, min (x + dp) hi)
      else if max (x - dm) lo = lo ∧ min (x + dp) hi = hi then none
      else gtbAux f lo hi x (2 * dm) (2 * dp) fuel := rfl

theorem brentAux_zero (f : ℚ → Option ℚ) (tol a b : ℚ) :
    brentAux f tol a b 0 = (a + b) / 2 := rfl

theorem brentAux_succ (f : ℚ → Option ℚ) (tol a b : ℚ) (fuel : ℕ) :
    brentAux f tol a b (fuel + 1) =
      if b - a ≤ tol then (a + b) / 2
      else
        if fpos (f a) ≠ fpos (f ((a + b) / 2)) then brentAux f tol a ((a + b) / 2) fuel
        else brentAux f tol ((a + b) / 2) b fuel := rfl

/-! ## Properties of the bracketing search -/

theorem gtbAux_some_bounds (f : ℚ → Option ℚ) (lo hi x : ℚ)
    (hlx : lo ≤ x) (hxh : x ≤ hi) :
    ∀ fuel dm dp a b, 0 ≤ dm → 0 ≤ dp →
      gtbAux f lo hi x dm dp fuel = some (a, b) →
      lo ≤ a ∧ a ≤ x ∧ x ≤ b ∧ b ≤ hi := by
  intro fuel
  induction fuel with
  | zero => intro dm dp a b _ _ h; exact absurd h (by simp [gtbAux])
  | succ n ih =>
      intro dm dp a b hdm hdp h
      rw [gtbAux_succ] at h
      by_cases hsgn : fpos (f (max (x - dm) lo)) ≠ fpos (f (min (x + dp) hi))
      · rw [if_pos hsgn] at h
        simp only [Option.some.injEq, Prod.mk.injEq] at h
        obtain ⟨ha, hb⟩ := h
        subst ha; subst hb
        exact ⟨le_max_right _ _, max_le (by linarith) hlx,
          le_min (by linarith) hxh, min_le_right _ _⟩
      · rw [if_neg hsgn] at h
        by_cases hend : max (x - dm) lo = lo ∧ min (x + dp) hi = hi
        · rw [if_pos hend] at h; exact absurd h (by simp)
        · rw [if_neg hend] at h
          exact ih (2 * dm) (2 * dp) a b (by linarith) (by linarith) h

theorem gtbAux_congr (f g : ℚ → Option ℚ) (lo hi x : ℚ)
    (hlx : lo ≤ x) (hxh : x ≤ hi)
    (hfg : ∀ q, lo ≤ q → q ≤ hi → f q = g q) :
    ∀ fuel dm dp, 0 ≤ dm → 0 ≤ dp →
      gtbAux f lo hi x dm dp fuel = gtbAux g lo hi x dm dp fuel := by
  intro fuel
  induction fuel with
  | zero => intro dm dp _ _; rfl
  | succ n ih =>
      intro dm dp hdm hdp
      rw [gtbAux_succ, gtbAux_succ]
      have ha : f (max (x - dm) lo) = g (max (x - dm) lo) :=
        hfg _ (le_max_right _ _) (le_trans (max_le (by linarith) hlx) hxh)
      have hb : f (min (x + dp) hi) = g (min (x + dp) hi) :=
        hfg _ (le_trans hlx (le_min (by linarith) hxh)) (min_le_right _ _)
      rw [ha, hb, ih (2 * dm) (2 * dp) (by linarith) (by linarith)]

theorem guess_to_bounds_some_bounds (f : ℚ → Option ℚ) (guess lo hi a b : ℚ)
    (hlh : lo ≤ hi) (h : guess_to_bounds f guess lo hi = some (a, b)) :
    lo ≤ a ∧ a ≤ b ∧ b ≤ hi := by
  unfold guess_to_bounds at h
  set x := min (max guess lo) hi with hx
  have hlx : lo ≤ x := le_min (le_max_right _ _) hlh
  have hxh : x ≤ hi := min_le_right _ _
  have hres := gtbAux_some_bounds f lo hi x hlx hxh 64 ((x - lo) / 50) ((hi - x) / 50)
    a b (div_nonneg (sub_nonneg.mpr hlx) (by norm_num))
    (div_nonneg (sub_nonneg.mpr hxh) (by norm_num)) h
  exact ⟨hres.1, le_trans hres.2.1 hres.2.2.1, hres.2.2.2⟩

/-! ## Properties of the root finder -/

theorem brentAux_mem (f : ℚ → Option ℚ) (tol : ℚ) :
    ∀ fuel a b, a ≤ b → a ≤ brentAux f tol a b fuel ∧ brentAux f tol a b fuel ≤ b := by
  intro fuel
  induction fuel with
  | zero => intro a b hab; rw [brentAux_zero]; constructor <;> linarith
  | succ n ih =>
      intro a b hab
      rw [brentAux_succ]
      by_cases hw : b - a ≤ tol
      · rw [if_pos hw]; constructor <;> linarith
      · rw [if_neg hw]
        have hm1 : a ≤ (a + b) / 2 := by linarith
        have hm2 : (a + b) / 2 ≤ b := by linarith
        by_cases hs : fpos (f a) ≠ fpos (f ((a + b) / 2))
        · rw [if_pos hs]
          obtain ⟨h1, h2⟩ := ih a ((a + b) / 2) hm1
          exact ⟨h1, le_trans h2 hm2⟩
        · rw [if_neg hs]
          obtain ⟨h1, h2⟩ := ih ((a + b) / 2) b hm2
          exact ⟨le_trans hm1 h1, h2⟩

theorem brentAux_congr (f g : ℚ → Option ℚ) (tol : ℚ) :
    ∀ fuel a b, a ≤ b → (∀ q, a ≤ q → q ≤ b → f q = g q) →
      brentAux f tol a b fuel = brentAux g tol a b fuel := by
  intro fuel
  induction fuel with
  | zero => intro a b _ _; rfl
  | succ n ih =>
      intro a b hab hfg
      rw [brentAux_succ, brentAux_succ]
      by_cases hw : b - a ≤ tol
      · rw [if_pos hw, if_pos hw]
      · rw [if_neg hw, if_neg hw]
        have hm1 : a ≤ (a + b) / 2 := by linarith
        have hm2 : (a + b) / 2 ≤ b := by linarith
        rw [hfg a le_rfl hab, hfg ((a + b) / 2) hm1 hm2]
        by_cases hs : fpos (g a) ≠ fpos (g ((a + b) / 2))
        · rw [if_pos hs, if_pos hs,
            ih a ((a + b) / 2) hm1 (fun q h1 h2 => hfg q h1 (le_trans h2 hm2))]
        · rw [if_neg hs, if_neg hs,
            ih ((a + b) / 2) b hm2 (fun q h1 h2 => hfg q (le_trans hm1 h1) h2)]

theorem brentFuel_le (w tol : ℚ) (hw : 0 ≤ w) (htol : 0 < tol) :
    w / 2 ^ brentFuel w tol ≤ tol := by
  set k := brentFuel w tol with hk
  have hwt : w / tol ≤ (k : ℚ) := by
    rw [hk]; unfold brentFuel
    have h1 : (0 : ℤ) ≤ ⌈w / tol⌉ := Int.ceil_nonneg (div_nonneg hw htol.le)
    calc w / tol ≤ ((⌈w / tol⌉ : ℤ) : ℚ) := Int.le_ceil _
      _ = ((⌈w / tol⌉.toNat : ℕ) : ℚ) := by
          norm_cast
          exact (Int.toNat_of_nonneg h1).symm
  have hk2 : (k : ℚ) ≤ 2 ^ k := by
    exact_mod_cast (Nat.lt_two_pow k).le
  have hpow : (0 : ℚ) < 2 ^ k := by positivity
  rw [div_le_iff hpow]
  have hw2 : w ≤ (k : ℚ) * tol := by
    rw [div_le_iff htol] at hwt; linarith
  calc w ≤ (k : ℚ) * tol := hw2
    _ ≤ 2 ^ k * tol := by nlinarith
    _ = tol * 2 ^ k := by ring

theorem brentAux_close (f : ℚ → Option ℚ) (r tol : ℚ) (htol : 0 ≤ tol) :
    ∀ fuel a b, a < r → r ≤ b →
      (∀ q, a ≤ q → q ≤ b → q < r → fpos (f q) = true) →
      (∀ q, a ≤ q → q ≤ b → r ≤ q → fpos (f q) = false) →
      (b - a) / 2 ^ fuel ≤ tol →
      |brentAux f tol a b fuel - r| ≤ tol := by
  intro fuel
  induction fuel with
  | zero =>
      intro a b har hrb hp hn hw
      rw [brentAux_zero]
      rw [pow_zero, div_one] at hw
      rw [abs_le]; constructor <;> linarith
  | succ n ih =>
      intro a b har hrb hp hn hw
      rw [brentAux_succ]
      by_cases hba : b - a ≤ tol
      · rw [if_pos hba, abs_le]; constructor <;> linarith
      · rw [if_neg hba]
        have hab : a < b := lt_of_lt_of_le har hrb
        have hhalf : ∀ w : ℚ, w / 2 / 2 ^ n = w / 2 ^ (n + 1) := fun w => by
          rw [div_div, pow_succ, mul_comm]
        by_cases hmr : (a + b) / 2 < r
        · have hfa : fpos (f a) = true := hp a le_rfl hab.le har
          have hfm : fpos (f ((a + b) / 2)) = true :=
            hp ((a + b) / 2) (by linarith) (by linarith) hmr
          rw [hfa, hfm, if_neg (by simp)]
          apply ih ((a + b) / 2) b hmr hrb
          · intro q h1 h2 h3; exact hp q (by linarith) h2 h3
          · intro q h1 h2 h3; exact hn q (by linarith) h2 h3
          · have hbm : b - (a + b) / 2 = (b - a) / 2 := by ring
            rw [hbm, hhalf]; exact hw
        · push_neg at hmr
          have hfa : fpos (f a) = true := hp a le_rfl hab.le har
          have hfm : fpos (f ((a + b) / 2)) = false :=
            hn ((a + b) / 2) (by linarith) (by linarith) hmr
          rw [hfa, hfm, if_pos (by simp)]
          apply ih a ((a + b) / 2) har hmr
          · intro q h1 h2 h3; exact hp q h1 (by linarith) h3
          · intro q h1 h2 h3; exact hn q h1 (by linarith) h3
          · have ham : (a + b) / 2 - a = (b - a) / 2 := by ring
            rw [ham, hhalf]; exact hw

theorem gtb_bracket (f : ℚ → Option ℚ) (lo hi r : ℚ) (hlo : lo < r) (hhi : r < hi)
    (hpos : ∀ q, lo ≤ q → q ≤ hi → q < r → fpos (f q) = true)
    (hneg : ∀ q, lo ≤ q → q ≤ hi → r ≤ q → fpos (f q) = false) :
    ∃ a b, guess_to_bounds f r lo hi = some (a, b) ∧
      lo ≤ a ∧ a < r ∧ r ≤ b ∧ b ≤ hi := by
  have hx : min (max r lo) hi = r := by
    rw [max_eq_left hlo.le, min_eq_left hhi.le]
  unfold guess_to_bounds
  rw [hx, show (64 : ℕ) = 63 + 1 from rfl, gtbAux_succ]
  have ha1 : lo ≤ max (r - (r - lo) / 50) lo := le_max_right _ _
  have ha2 : max (r - (r - lo) / 50) lo < r := by
    apply max_lt _ hlo
    have : 0 < (r - lo) / 50 := div_pos (by linarith) (by norm_num)
    linarith
  have hb1 : r < min (r + (hi - r) / 50) hi := by
    apply lt_min _ hhi
    have : 0 < (hi - r) / 50 := div_pos (by linarith) (by norm_num)
    linarith
  have hb2 : min (r + (hi - r) / 50) hi ≤ hi := min_le_right _ _
  have hfa : fpos (f (max (r - (r - lo) / 50) lo)) = true :=
    hpos _ ha1 (by linarith) ha2
  have hfb : fpos (f (min (r + (hi - r) / 50) hi)) = false :=
    hneg _ (by linarith) hb2 hb1.le
  rw [hfa, hfb, if_pos (by simp)]
  exact ⟨_, _, rfl, ha1, ha2, hb1.le, hb2⟩

/-! ## Unfolding lemmas for the connector -/

theorem ntp_eq_of_small (gtb : GtbFn) (brentFn : BrentFn) (sB tB pB : ℚ)
    (S T P : List R1) (n_good : ℕ) (tol_p : ℚ) (eos : EosFn) (interp_fn : InterpFn)
    (hn : ¬ 1 < n_good) :
    _ntp_bottle_to_cast gtb brentFn sB tB pB S T P n_good tol_p eos interp_fn =
      nanTriple := by
  unfold _ntp_bottle_to_cast
  rw [if_neg hn]

theorem ntp_eq_of_gtb_none (gtb : GtbFn) (brentFn : BrentFn) (sB tB pB : ℚ)
    (S T P : List R1) (n_good : ℕ) (tol_p : ℚ) (eos : EosFn) (interp_fn : InterpFn)
    (hn : 1 < n_good)
    (h : gtb (fun q => _func q sB tB pB S T P eos interp_fn) pB (getQ P 0)
      (getQ P (n_good - 1)) = none) :
    _ntp_bottle_to_cast gtb brentFn sB tB pB S T P n_good tol_p eos interp_fn =
      nanTriple := by
  unfold _ntp_bottle_to_cast
  rw [if_pos hn, h]

theorem ntp_eq_of_gtb_some (gtb : GtbFn) (brentFn : BrentFn) (sB tB pB : ℚ)
    (S T P : List R1) (n_good : ℕ) (tol_p : ℚ) (eos : EosFn) (interp_fn : InterpFn)
    (a b : ℚ) (hn : 1 < n_good)
    (h : gtb (fun q => _func q sB tB pB S T P eos interp_fn) pB (getQ P 0)
      (getQ P (n_good - 1)) = some (a, b)) :
    _ntp_bottle_to_cast gtb brentFn sB tB pB S T P n_good tol_p eos interp_fn =
      ((interp_fn (brentFn (fun q => _func q sB tB pB S T P eos interp_fn) a b tol_p)
          P S T).1,
       (interp_fn (brentFn (fun q => _func q sB tB pB S T P eos interp_fn) a b tol_p)
          P S T).2,
       some (brentFn (fun q => _func q sB tB pB S T P eos interp_fn) a b tol_p)) := by
  unfold _ntp_bottle_to_cast
  rw [if_pos hn, h]

/-- Evaluation of the spec-modelled interpolator on the synthetic linear cast
`P = S-col [0,0,0], T-col [0,1,2]` used by the witnesses: inside the domain it
returns exactly `(0, q)`. -/
theorem interpTwo_linear_eval (q : ℚ) (h0 : 0 ≤ q) (h2 : q ≤ 2) :
    interpTwo q [some 0, some 1, some 2] [some 0, some 0, some 0]
      [some 0, some 1, some 2] = (some 0, some q) := by
  have hv : validTriples [some 0, some 1, some 2] [some 0, some 0, some 0]
      [some (0 : ℚ), some 1, some 2] = [(0, 0, 0), (1, 0, 1), (2, 0, 2)] := rfl
  show interpSeg q (validTriples _ _ _) = _
  rw [hv]
  simp only [interpSeg, lerp]
  split_ifs with ha hb hc hd <;> norm_num <;> try linarith

/-! ## Claims -/

/-- C4: for every trial pressure `p`, bottle `(sB, tB, pB)` and cast
`(S, T, P)`, when the interpolation of the cast at `p` yields `(s, t)`, the
connection objective `_func` evaluates the equation of state for the bottle
and for the interpolated cast point at the averaged pressure `(p + pB) / 2`
and returns the difference `eos sB tB p_avg - eos s t p_avg`; it is a pure
function of `p` given the closed-over context. -/
theorem c4_objective_averaged_difference (p sB tB pB : ℚ) (S T P : List R1)
    (eos : EosFn) (interp_fn : InterpFn) (s t : ℚ)
    (h : interp_fn p P S T = (some s, some t)) :
    _func p sB tB pB S T P eos interp_fn =
      some (eos sB tB ((p + pB) / 2) - eos s t ((p + pB) / 2)) := by
  unfold _func
  rw [h]
  have havg : (pB + p) * (1 / 2) = (p + pB) / 2 := by ring
  rw [havg]

/-- Witness for C4 at a concrete cast, bottle and trial pressure. -/
theorem c4_objective_averaged_difference_witness :
    interpTwo 1 [some 0, some 2] [some 1, some 3] [some 5, some 9] =
      (some 2, some 7) ∧
    _func 1 10 20 3 [some 1, some 3] [some 5, some 9] [some 0, some 2]
        (fun s t p => s * t + p) interpTwo =
      some ((fun s t p : ℚ => s * t + p) 10 20 ((1 + 3) / 2) -
        (fun s t p : ℚ => s * t + p) 2 7 ((1 + 3) / 2)) := by
  have hi : interpTwo 1 [some 0, some 2] [some 1, some 3] [some 5, some 9] =
      (some 2, some 7) := by
    norm_num [interpTwo, interpSeg, validTriples, lerp]
  exact ⟨hi, c4_objective_averaged_difference 1 10 20 3 [some 1, some 3]
    [some 5, some 9] [some 0, some 2] (fun s t p => s * t + p) interpTwo 2 7 hi⟩

/-- C5: for every cast whose valid length `n_good` is at most 1, the
bottle-to-cast connection returns the missing triple for every bottle, without
invoking the bracketing search or the root finder (both are universally
quantified, so neither can influence the result). -/
theorem c5_short_cast_missing (gtb : GtbFn) (brentFn : BrentFn) (sB tB pB : ℚ)
    (S T P : List R1) (n_good : ℕ) (tol_p : ℚ) (eos : EosFn) (interp_fn : InterpFn)
    (h : n_good ≤ 1) :
    _ntp_bottle_to_cast gtb brentFn sB tB pB S T P n_good tol_p eos interp_fn =
      nanTriple :=
  ntp_eq_of_small gtb brentFn sB tB pB S T P n_good tol_p eos interp_fn (by omega)

/-- Witness for C5 at a concrete one-point cast. -/
theorem c5_short_cast_missing_witness :
    (1 : ℕ) ≤ 1 ∧
    _ntp_bottle_to_cast guess_to_bounds brent 35 20 100 [some 35] [some 20]
        [some 100] 1 (1 / 10000) (fun _ _ _ => 0) interpTwo = nanTriple :=
  ⟨le_refl 1, c5_short_cast_missing guess_to_bounds brent 35 20 100 [some 35]
    [some 20] [some 100] 1 (1 / 10000) (fun _ _ _ => 0) interpTwo (le_refl 1)⟩

/-- C6: for every bottle and cast with `n_good > 1`, if the bracketing search
finds no sign change within the cast's valid pressure domain (non-finite lower
bound, modelled as `none`), the connection returns the missing triple without
invoking the root finder (universally quantified), and this output equals the
output of the too-few-data-points case (`n_good = 0`), so the two failure
causes are not distinguishable from the connector's output. -/
theorem c6_no_sign_change_missing (brentFn : BrentFn) (sB tB pB : ℚ)
    (S T P : List R1) (n_good : ℕ) (tol_p : ℚ) (eos : EosFn) (interp_fn : InterpFn)
    (hn : 1 < n_good)
    (hgtb : guess_to_bounds (fun q => _func q sB tB pB S T P eos interp_fn) pB
      (getQ P 0) (getQ P (n_good - 1)) = none) :
    _ntp_bottle_to_cast guess_to_bounds brentFn sB tB pB S T P n_good tol_p eos
        interp_fn = nanTriple ∧
    _ntp_bottle_to_cast guess_to_bounds brentFn sB tB pB S T P n_good tol_p eos
        interp_fn =
      _ntp_bottle_to_cast guess_to_bounds brentFn sB tB pB S T P 0 tol_p eos
        interp_fn := by
  have h1 := ntp_eq_of_gtb_none guess_to_bounds brentFn sB tB pB S T P n_good tol_p
    eos interp_fn hn hgtb
  have h2 := ntp_eq_of_small guess_to_bounds brentFn sB tB pB S T P 0 tol_p eos
    interp_fn (by omega)
  exact ⟨h1, h1.trans h2.symm⟩

/-- Witness for C6: a constant-density ocean, where the objective is
identically zero and the search reaches both domain bounds with no sign
change. -/
theorem c6_no_sign_change_missing_witness :
    guess_to_bounds (fun q => _func q 0 0 0 [some 0, some 0] [some 0, some 0]
        [some 0, some 1] (fun _ _ _ => 0) interpTwo) 0
      (getQ [some 0, some 1] 0) (getQ [some 0, some 1] (2 - 1)) = none ∧
    (_ntp_bottle_to_cast guess_to_bounds brent 0 0 0 [some 0, some 0]
        [some 0, some 0] [some 0, some 1] 2 (1 / 10000) (fun _ _ _ => 0)
        interpTwo = nanTriple ∧
     _ntp_bottle_to_cast guess_to_bounds brent 0 0 0 [some 0, some 0]
        [some 0, some 0] [some 0, some 1] 2 (1 / 10000) (fun _ _ _ => 0)
        interpTwo =
       _ntp_bottle_to_cast guess_to_bounds brent 0 0 0 [some 0, some 0]
        [some 0, some 0] [some 0, some 1] 0 (1 / 10000) (fun _ _ _ => 0)
        interpTwo) := by
  have hg : guess_to_bounds (fun q => _func q 0 0 0 [some 0, some 0] [some 0, some 0]
      [some 0, some 1] (fun _ _ _ => 0) interpTwo) 0
      (getQ [some 0, some 1] 0) (getQ [some 0, some 1] (2 - 1)) = none := by
    set_option maxRecDepth 4000 in
    norm_num [guess_to_bounds, gtbAux, fpos, _func, interpTwo, interpSeg,
      validTriples, lerp, getQ]
  exact ⟨hg, c6_no_sign_change_missing brent 0 0 0 [some 0, some 0] [some 0, some 0]
    [some 0, some 1] 2 (1 / 10000) (fun _ _ _ => 0) interpTwo (by norm_num) hg⟩

/-- C7: for every bottle and cast with strictly increasing valid pressures,
the pressure returned by the connection lies within
`[P[0], P[n_good - 1]]`, or the result is entirely missing; moreover the
search never probes pressures outside these bounds: the output depends on the
interpolator only through its values at in-domain pressures. -/
theorem c7_pressure_within_domain (sB tB pB : ℚ) (S T P : List R1) (n_good : ℕ)
    (tol_p : ℚ) (eos : EosFn) (interp_fn : InterpFn)
    (hinc : strictIncOn P n_good) :
    ((∃ p, (_ntp_bottle_to_cast guess_to_bounds brent sB tB pB S T P n_good tol_p
        eos interp_fn).2.2 = some p ∧
        getQ P 0 ≤ p ∧ p ≤ getQ P (n_good - 1)) ∨
      _ntp_bottle_to_cast guess_to_bounds brent sB tB pB S T P n_good tol_p eos
        interp_fn = nanTriple) ∧
    (∀ interp2 : InterpFn,
      (∀ q, getQ P 0 ≤ q → q ≤ getQ P (n_good - 1) →
        interp_fn q P S T = interp2 q P S T) →
      _ntp_bottle_to_cast guess_to_bounds brent sB tB pB S T P n_good tol_p eos
          interp_fn =
        _ntp_bottle_to_cast guess_to_bounds brent sB tB pB S T P n_good tol_p eos
          interp2) := by
  by_cases hn : 1 < n_good
  · have hlh : getQ P 0 < getQ P (n_good - 1) :=
      hinc (n_good - 1) (by omega) 0 (by omega)
    constructor
    · rcases hgtb : guess_to_bounds (fun q => _func q sB tB pB S T P eos interp_fn)
          pB (getQ P 0) (getQ P (n_good - 1)) with _ | ⟨a, b⟩
      · right
        exact ntp_eq_of_gtb_none guess_to_bounds brent sB tB pB S T P n_good tol_p
          eos interp_fn hn hgtb
      · left
        obtain ⟨h1, h2, h3⟩ := guess_to_bounds_some_bounds
          (fun q => _func q sB tB pB S T P eos interp_fn) pB (getQ P 0)
          (getQ P (n_good - 1)) a b hlh.le hgtb
        have hmem := brentAux_mem (fun q => _func q sB tB pB S T P eos interp_fn)
          tol_p (brentFuel (b - a) tol_p) a b h2
        refine ⟨brent (fun q => _func q sB tB pB S T P eos interp_fn) a b tol_p,
          ?_, le_trans h1 hmem.1, le_trans hmem.2 h3⟩
        rw [ntp_eq_of_gtb_some guess_to_bounds brent sB tB pB S T P n_good tol_p
          eos interp_fn a b hn hgtb]
    · intro interp2 hI
      have hf : ∀ q, getQ P 0 ≤ q → q ≤ getQ P (n_good - 1) →
          _func q sB tB pB S T P eos interp_fn =
          _func q sB tB pB S T P eos interp2 := by
        intro q hq1 hq2
        unfold _func
        rw [hI q hq1 hq2]
      have hlx : getQ P 0 ≤ min (max pB (getQ P 0)) (getQ P (n_good - 1)) :=
        le_min (le_max_right _ _) hlh.le
      have hxh : min (max pB (getQ P 0)) (getQ P (n_good - 1)) ≤
          getQ P (n_good - 1) := min_le_right _ _
      have hgeq : guess_to_bounds (fun q => _func q sB tB pB S T P eos interp_fn)
          pB (getQ P 0) (getQ P (n_good - 1)) =
          guess_to_bounds (fun q => _func q sB tB pB S T P eos interp2)
          pB (getQ P 0) (getQ P (n_good - 1)) := by
        unfold guess_to_bounds
        exact gtbAux_congr _ _ _ _ _ hlx hxh (fun q hq1 hq2 => hf q hq1 hq2) 64 _ _
          (div_nonneg (sub_nonneg.mpr hlx) (by norm_num))
          (div_nonneg (sub_nonneg.mpr hxh) (by norm_num))
      rcases hgtb : guess_to_bounds (fun q => _func q sB tB pB S T P eos interp2)
          pB (getQ P 0) (getQ P (n_good - 1)) with _ | ⟨a, b⟩
      · rw [ntp_eq_of_gtb_none guess_to_bounds brent sB tB pB S T P n_good tol_p
            eos interp_fn hn (hgeq.trans hgtb),
          ntp_eq_of_gtb_none guess_to_bounds brent sB tB pB S T P n_good tol_p
            eos interp2 hn hgtb]
      · obtain ⟨hb1, hb2, hb3⟩ := guess_to_bounds_some_bounds
          (fun q => _func q sB tB pB S T P eos interp2) pB (getQ P 0)
          (getQ P (n_good - 1)) a b hlh.le hgtb
        have hbr : brent (fun q => _func q sB tB pB S T P eos interp_fn) a b tol_p =
            brent (fun q => _func q sB tB pB S T P eos interp2) a b tol_p := by
          unfold brent
          exact brentAux_congr _ _ tol_p (brentFuel (b - a) tol_p) a b hb2
            (fun q hq1 hq2 => hf q (le_trans hb1 hq1) (le_trans hq2 hb3))
        rw [ntp_eq_of_gtb_some guess_to_bounds brent sB tB pB S T P n_good tol_p
            eos interp_fn a b hn (hgeq.trans hgtb),
          ntp_eq_of_gtb_some guess_to_bounds brent sB tB pB S T P n_good tol_p
            eos interp2 a b hn hgtb, hbr]
        have hmem := brentAux_mem (fun q => _func q sB tB pB S T P eos interp2)
          tol_p (brentFuel (b - a) tol_p) a b hb2
        have hIq := hI (brent (fun q => _func q sB tB pB S T P eos interp2) a b
          tol_p) (le_trans hb1 hmem.1) (le_trans hmem.2 hb3)
        rw [hIq]
  · constructor
    · right
      exact ntp_eq_of_small guess_to_bounds brent sB tB pB S T P n_good tol_p eos
        interp_fn hn
    · intro interp2 _
      rw [ntp_eq_of_small guess_to_bounds brent sB tB pB S T P n_good tol_p eos
          interp_fn hn,
        ntp_eq_of_small guess_to_bounds brent sB tB pB S T P n_good tol_p eos
          interp2 hn]

/-- Witness for C7 on a strictly increasing three-point cast. -/
theorem c7_pressure_within_domain_witness :
    strictIncOn [some 0, some 1, some 2] 3 ∧
    (((∃ p, (_ntp_bottle_to_cast guess_to_bounds brent 0 1 1 [some 0, some 0, some 0]
        [some 0, some 1, some 2] [some 0, some 1, some 2] 3 (1 / 10000)
        (fun _ t _ => t) interpTwo).2.2 = some p ∧
        getQ [some 0, some 1, some 2] 0 ≤ p ∧
        p ≤ getQ [some 0, some 1, some 2] (3 - 1)) ∨
      _ntp_bottle_to_cast guess_to_bounds brent 0 1 1 [some 0, some 0, some 0]
        [some 0, some 1, some 2] [some 0, some 1, some 2] 3 (1 / 10000)
        (fun _ t _ => t) interpTwo = nanTriple) ∧
    (∀ interp2 : InterpFn,
      (∀ q, getQ [some 0, some 1, some 2] 0 ≤ q →
        q ≤ getQ [some 0, some 1, some 2] (3 - 1) →
        interpTwo q [some 0, some 1, some 2] [some 0, some 0, some 0]
          [some 0, some 1, some 2] =
        interp2 q [some 0, some 1, some 2] [some 0, some 0, some 0]
          [some 0, some 1, some 2]) →
      _ntp_bottle_to_cast guess_to_bounds brent 0 1 1 [some 0, some 0, some 0]
          [some 0, some 1, some 2] [some 0, some 1, some 2] 3 (1 / 10000)
          (fun _ t _ => t) interpTwo =
        _ntp_bottle_to_cast guess_to_bounds brent 0 1 1 [some 0, some 0, some 0]
          [some 0, some 1, some 2] [some 0, some 1, some 2] 3 (1 / 10000)
          (fun _ t _ => t) interp2)) := by
  have hinc : strictIncOn [some 0, some 1, some 2] 3 := by
    intro j hj i hij
    interval_cases j <;> interval_cases i <;> norm_num [getQ]
  exact ⟨hinc, c7_pressure_within_domain 0 1 1 [some 0, some 0, some 0]
    [some 0, some 1, some 2] [some 0, some 1, some 2] 3 (1 / 10000)
    (fun _ t _ => t) interpTwo hinc⟩

/-- C8 counterexample: in a constant-density ocean (equation of state
identically zero) with the bottle placed exactly at the interior sample
`k = 1` of the strictly increasing cast `P = [0, 1, 2]` with matching salinity
and temperature, the connection objective is identically zero, no sign change
is ever found, and the connection returns the missing triple instead of a
pressure within `tol_p` of `P[1] = 1`. -/
theorem c8_counterexample_constant_cast :
    ¬ ∃ p, (_ntp_bottle_to_cast guess_to_bounds brent 0 0 1 [some 0, some 0, some 0]
        [some 0, some 0, some 0] [some 0, some 1, some 2] 3 (1 / 10000)
        (fun _ _ _ => 0) interpTwo).2.2 = some p ∧ |p - 1| ≤ 1 / 10000 := by
  have h : _ntp_bottle_to_cast guess_to_bounds brent 0 0 1 [some 0, some 0, some 0]
      [some 0, some 0, some 0] [some 0, some 1, some 2] 3 (1 / 10000)
      (fun _ _ _ => 0) interpTwo = nanTriple := by
    set_option maxRecDepth 8000 in
    norm_num [_ntp_bottle_to_cast, guess_to_bounds, gtbAux, fpos, _func, interpTwo,
      interpSeg, validTriples, lerp, getQ]
  rw [h]
  rintro ⟨p, hp, _⟩
  simp [nanTriple] at hp

/-- C8 (amended): for every cast with strictly increasing valid pressures and
a bottle placed exactly at an interior valid sample `k` (`0 < k < n_good - 1`)
with matching salinity and temperature, provided the connection objective is
strictly positive at in-domain pressures below `P[k]` and non-positive at or
above `P[k]` (as when density varies strictly through the matching sample),
the connection returns a pressure within `tol_p` of `P[k]`. -/
theorem c8_amended_self_consistency (sB tB pB : ℚ) (S T P : List R1)
    (n_good k : ℕ) (tol_p : ℚ) (eos : EosFn) (interp_fn : InterpFn)
    (hk0 : 0 < k) (hk1 : k < n_good - 1)
    (hsB : sB = getQ S k) (htB : tB = getQ T k) (hpB : pB = getQ P k)
    (hinc : strictIncOn P n_good) (htol : 0 < tol_p)
    (hpos : ∀ q, getQ P 0 ≤ q → q ≤ getQ P (n_good - 1) → q < pB →
      fpos (_func q sB tB pB S T P eos interp_fn) = true)
    (hneg : ∀ q, getQ P 0 ≤ q → q ≤ getQ P (n_good - 1) → pB ≤ q →
      fpos (_func q sB tB pB S T P eos interp_fn) = false) :
    ∃ p, (_ntp_bottle_to_cast guess_to_bounds brent sB tB pB S T P n_good tol_p eos
        interp_fn).2.2 = some p ∧ |p - pB| ≤ tol_p := by
  have hn : 1 < n_good := by omega
  have hlo : getQ P 0 < pB := by
    rw [hpB]; exact hinc k (by omega) 0 hk0
  have hhi : pB < getQ P (n_good - 1) := by
    rw [hpB]; exact hinc (n_good - 1) (by omega) k hk1
  obtain ⟨a, b, hgtb, ha1, ha2, hb1, hb2⟩ := gtb_bracket
    (fun q => _func q sB tB pB S T P eos interp_fn) (getQ P 0)
    (getQ P (n_good - 1)) pB hlo hhi hpos hneg
  refine ⟨brent (fun q => _func q sB tB pB S T P eos interp_fn) a b tol_p, ?_, ?_⟩
  · rw [ntp_eq_of_gtb_some guess_to_bounds brent sB tB pB S T P n_good tol_p eos
      interp_fn a b hn hgtb]
  · have hw : (b - a) / 2 ^ brentFuel (b - a) tol_p ≤ tol_p :=
      brentFuel_le (b - a) tol_p (by linarith) htol
    exact brentAux_close (fun q => _func q sB tB pB S T P eos interp_fn) pB tol_p
      htol.le (brentFuel (b - a) tol_p) a b ha2 hb1
      (fun q h1 h2 h3 => hpos q (le_trans ha1 h1) (le_trans h2 hb2) h3)
      (fun q h1 h2 h3 => hneg q (le_trans ha1 h1) (le_trans h2 hb2) h3) hw

/-- Witness for the amended C8 on a synthetic linear cast with a linear
equation of state, bottle at the interior sample `(S, T, P) = (0, 1, 1)`. -/
theorem c8_amended_self_consistency_witness :
    (0 : ℚ) < 1 / 10000 ∧
    ∃ p, (_ntp_bottle_to_cast guess_to_bounds brent 0 1 1 [some 0, some 0, some 0]
        [some 0, some 1, some 2] [some 0, some 1, some 2] 3 (1 / 10000)
        (fun _ t _ => t) interpTwo).2.2 = some p ∧ |p - 1| ≤ 1 / 10000 := by
  have hfq : ∀ q : ℚ, 0 ≤ q → q ≤ 2 →
      _func q 0 1 1 [some 0, some 0, some 0] [some 0, some 1, some 2]
        [some 0, some 1, some 2] (fun _ t _ => t) interpTwo = some (1 - q) := by
    intro q h0 h2
    unfold _func
    rw [interpTwo_linear_eval q h0 h2]
  have hg0 : getQ [some (0 : ℚ), some 1, some 2] 0 = 0 := by norm_num [getQ]
  have hg2 : getQ [some (0 : ℚ), some 1, some 2] (3 - 1) = 2 := by norm_num [getQ]
  refine ⟨by norm_num, c8_amended_self_consistency 0 1 1 [some 0, some 0, some 0]
    [some 0, some 1, some 2] [some 0, some 1, some 2] 3 1 (1 / 10000)
    (fun _ t _ => t) interpTwo (by norm_num) (by norm_num) (by norm_num [getQ])
    (by norm_num [getQ]) (by norm_num [getQ]) ?hinc (by norm_num) ?hpos ?hneg⟩
  case hinc =>
    intro j hj i hij
    interval_cases j <;> interval_cases i <;> norm_num [getQ]
  case hpos =>
    intro q h1 h2 h3
    rw [hg0] at h1
    rw [hg2] at h2
    rw [hfq q h1 h2]
    simp only [fpos, decide_eq_true_eq]
    linarith
  case hneg =>
    intro q h1 h2 h3
    rw [hg0] at h1
    rw [hg2] at h2
    rw [hfq q h1 h2]
    simp only [fpos, decide_eq_false_iff_not, not_lt]
    linarith

/-- C9: the public `ntp_bottle_to_cast` determines the cast's valid length
from the salinity array alone, as the length of the leading non-NaN prefix of
`S` (`find_first_nan S`), and returns exactly
`_ntp_bottle_to_cast sB tB pB S T P (find_first_nan S) tol_p eos interp_fn`;
NaNs appearing after the first NaN of `S` do not change the valid length, and
`T` and `P` play no part in it. -/
theorem c9_public_valid_length_from_S :
    (∀ (sB tB pB : ℚ) (S T P : List R1) (tol_p : ℚ) (eos : EosFn)
        (interp_fn : InterpFn),
      ntp_bottle_to_cast sB tB pB S T P tol_p eos interp_fn =
        _ntp_bottle_to_cast guess_to_bounds brent sB tB pB S T P
          (find_first_nan S) tol_p eos interp_fn) ∧
    (∀ pre rest : List R1, (∀ o ∈ pre, o.isSome) →
      find_first_nan (pre ++ none :: rest) = pre.length) := by
  constructor
  · intro sB tB pB S T P tol_p eos interp_fn
    rfl
  · intro pre rest h
    induction pre with
    | nil => rfl
    | cons o pre ih =>
        have ho : o.isSome := h o (List.mem_cons_self o pre)
        obtain ⟨v, rfl⟩ := Option.isSome_iff_exists.mp ho
        simp only [List.cons_append, find_first_nan, List.length_cons,
          List.append_eq]
        rw [ih (fun x hx => h x (List.mem_cons_of_mem _ hx))]

/-- Witness for C9: a valid prefix of length 2 followed by NaNs and a further
finite entry still yields valid length 2. -/
theorem c9_public_valid_length_from_S_witness :
    (∀ o ∈ [some (1 : ℚ), some 2], o.isSome) ∧
    find_first_nan ([some (1 : ℚ), some 2] ++ none :: [none, some 5]) =
      [some (1 : ℚ), some 2].length :=
  ⟨by decide, c9_public_valid_length_from_S.2 [some 1, some 2] [none, some 5]
    (by decide)⟩

/-- C10: running the bottle-to-cast connection twice with identical inputs
(same bottle, cast arrays, valid length, tolerance, equation of state,
interpolator, bracketing search and root finder) yields identical output; the
embedding is a pure function of its arguments, mirroring the source, whose
module holds no mutable state between calls. -/
theorem c10_connection_deterministic (gtb : GtbFn) (brentFn : BrentFn)
    (sB tB pB : ℚ) (S T P : List R1) (n_good : ℕ) (tol_p : ℚ) (eos : EosFn)
    (interp_fn : InterpFn) :
    _ntp_bottle_to_cast gtb brentFn sB tB pB S T P n_good tol_p eos interp_fn =
      _ntp_bottle_to_cast gtb brentFn sB tB pB S T P n_good tol_p eos interp_fn ∧
    ntp_bottle_to_cast sB tB pB S T P tol_p eos interp_fn =
      ntp_bottle_to_cast sB tB pB S T P tol_p eos interp_fn :=
  ⟨rfl, rfl⟩

/-- C1: as written, `neutral_trajectory` cannot append any connection result:
its per-cast call passes twelve positional arguments (`Sc` and `Tc` twice) to
the ten-parameter `_ntp_bottle_to_cast`, so the first loop iteration raises a
`TypeError` for every input with at least two casts — in particular for the
five-cast scenario of the claim, where the truncation to three valid entries
can never be observed. -/
theorem c1_trajectory_loop_raises (S0 S1 T0 T1 P0 P1 : List R1)
    (Ss Ts Ps : List (List R1)) (p0 tol_p : ℚ) (s0 t0 : Option ℚ) (eos : EosFn)
    (interp : InterpFn) :
    neutral_trajectory (S0 :: S1 :: Ss) (T0 :: T1 :: Ts) (P0 :: P1 :: Ps) p0 s0 t0
        tol_p eos interp =
      Except.error "TypeError: _ntp_bottle_to_cast takes 10 positional arguments" ∧
    neutral_trajectory
        [[some 35, some 35], [some 35, some 35], [some 35, some 35],
          [some 35, some 35], [some 35, some 35]]
        [[some 10, some 12], [some 10, some 12], [some 10, some 12],
          [some 10, some 12], [some 10, some 12]]
        [[some 0, some 1], [some 0, some 1], [some 0, some 1],
          [some 0, some 1], [some 0, some 1]]
        0 none none (1 / 10000) (fun _ t _ => t) interpTwo =
      Except.error "TypeError: _ntp_bottle_to_cast takes 10 positional arguments" :=
  ⟨rfl, rfl⟩

/-- C2: `neutral_trajectory` never reads `s0` or `t0`: its output is the same
for any values of these parameters, and trajectory point 0 is always obtained
by interpolating the first cast at `p0` — here a single-cast run with
`s0 = 5, t0 = 7` still returns the interpolated bottle `(0, 0, 0)`, not
`(5, 7, 0)`. -/
theorem c2_start_bottle_ignored :
    (∀ (S T P : List (List R1)) (p0 : ℚ) (s0 t0 s0' t0' : Option ℚ) (tol_p : ℚ)
        (eos : EosFn) (interp : InterpFn),
      neutral_trajectory S T P p0 s0 t0 tol_p eos interp =
        neutral_trajectory S T P p0 s0' t0' tol_p eos interp) ∧
    neutral_trajectory [[some 0, some 0]] [[some 0, some 0]] [[some 0, some 1]] 0
        (some 5) (some 7) (1 / 10000) (fun _ _ p => p) interpTwo =
      Except.ok [(some 0, some 0, some 0)] := by
  constructor
  · intro S T P p0 s0 t0 s0' t0' tol_p eos interp
    rfl
  · norm_num [neutral_trajectory, trajLoop, interpTwo, interpSeg, validTriples,
      lerp, Except.map]

/-- C3: the per-cast connection inside `neutral_trajectory` — which computes
`K = np.sum(np.isfinite(Sc))` and calls `_ntp_bottle_to_cast` with the
argument list `(s[c-1], t[c-1], p[c-1], Sc, Tc, Pc, Sc, Tc, K, eos, interp,
tol_p)` — does not return the same triple as the public `ntp_bottle_to_cast`:
it raises a `TypeError`, because twelve positional arguments are passed to the
ten-parameter function. -/
theorem c3_internal_call_raises (prev : R3) (Sc Tc Pc : List R1) (eos : EosFn)
    (interp : InterpFn) (tol_p : ℚ) :
    _ntp_call [PyVal.fnum prev.1, PyVal.fnum prev.2.1, PyVal.fnum prev.2.2,
      PyVal.arr Sc, PyVal.arr Tc, PyVal.arr Pc, PyVal.arr Sc, PyVal.arr Tc,
      PyVal.int (countFinite Sc), PyVal.eosV eos, PyVal.interpV interp,
      PyVal.fnum (some tol_p)] =
      Except.error "TypeError: _ntp_bottle_to_cast takes 10 positional arguments" :=
  rfl
